/-
Verification of the `feature` Go package (github.com/mpyw/feature): a
type-safe, collision-free feature-flag library over `context.Context`.

Shallow embedding notes.
* A `context.Context` value chain is modelled by `Ctx`, a list of
  (token address, stored dynamic value) pairs; `context.WithValue`
  prepends a pair and `ctx.Value` returns the first (innermost) match,
  exactly Go's parent-walk semantics.
* The `*` identity tokens (`new(` `opaque)` in `New`, feature.go) are
  modelled by their address, a `Nat` drawn from a monotone allocation
  counter threaded through every constructor call; two allocations never
  return the same address.
* Go's heterogeneous `interface\x7b\x7d` values stored in a context are
  modelled by `GoVal`; a Go value type `V` together with its type
  assertion `x.(V)` is modelled by a `GoType V` record: `inj` boxes a
  `V` into a `GoVal`, `proj` is the checked un-boxing (`none` when the
  dynamic type differs), `zero` is Go's zero value of `V`, `fmtV` is
  `fmt.Sprintf` with verb v on a `V`, and `typeName` is
  `reflect.TypeOf` output used by `GoString`.
* `runtime.Caller(skip)` is modelled by indexing into an explicit list
  of stack frames; the frames contributed by the package's own
  functions (`computeKeyName`, `New`, `NewBool`, ...) are explicit
  constants, and a constructor receives the frames of its callers
  (head = the user's construction call site).
* `panic` in `MustGet` is modelled by `Except String`.
-/
import Mathlib

set_option autoImplicit false

namespace Feature

/-- A dynamic (heterogeneously typed) Go value as stored in a context.
`vOther` stands for values of any foreign type not otherwise listed. -/
inductive GoVal where
  | vBool : Bool → GoVal
  | vInt : Int → GoVal
  | vString : String → GoVal
  | vOther : Nat → GoVal
  deriving DecidableEq, Repr

/-- A Go value type `V` as used by a key: its zero value, boxing into and
checked un-boxing from a dynamic `GoVal` (the type assertion `x.(V)`),
`fmt` verb-v rendering, and the `reflect` type name. -/
structure GoType (V : Type) where
  zero : V
  inj : V → GoVal
  proj : GoVal → Option V
  proj_inj : ∀ v : V, proj (inj v) = some v
  fmtV : V → String
  typeName : String

/-- The Go type `bool`. -/
def boolTy : GoType Bool where
  zero := false
  inj := GoVal.vBool
  proj := fun g => match g with | GoVal.vBool b => some b | _ => none
  proj_inj := fun _ => rfl
  fmtV := fun b => cond b "true" "false"
  typeName := "bool"

/-- The Go type `int`. -/
def intTy : GoType Int where
  zero := 0
  inj := GoVal.vInt
  proj := fun g => match g with | GoVal.vInt n => some n | _ => none
  proj_inj := fun _ => rfl
  fmtV := fun n => toString n
  typeName := "int"

/-- The Go type `string`. -/
def stringTy : GoType String where
  zero := ""
  inj := GoVal.vString
  proj := fun g => match g with | GoVal.vString s => some s | _ => none
  proj_inj := fun _ => rfl
  fmtV := fun s => s
  typeName := "string"

/-- A context value chain: innermost binding first. `context.WithValue`
prepends; `ctx.Value` walks towards the root and returns the first hit. -/
abbrev Ctx : Type := List (Nat × GoVal)

/-- `ctx.Value(tok)`: the innermost binding for token address `tok`,
`none` when the chain holds no binding for it (Go: a nil interface). -/
def Ctx.value : Ctx → Nat → Option GoVal
  | [], _ => none
  | (t, g) :: rest, tok => if t = tok then some g else Ctx.value rest tok

/-- `tok` is absent from the whole chain. -/
def Ctx.unbound (ctx : Ctx) (tok : Nat) : Prop :=
  ∀ p ∈ ctx, p.1 ≠ tok

instance (ctx : Ctx) (tok : Nat) : Decidable (ctx.unbound tok) :=
  List.decidableBAll _ ctx

/-- A call-stack frame: source file and line, as `runtime.Caller` reports. -/
abbrev Frame : Type := String × Nat

/-- `runtime.Caller(skip)` over an explicit stack (index 0 = the frame
containing the `runtime.Caller` call): `some (file, line)` or `none`
when `skip` walks off the stack (Go: ok = false). -/
def runtimeCaller (stack : List Frame) (skip : Nat) : Option Frame :=
  stack.get? skip

/-- `fmt.Sprintf` with verb p on a token address: hexadecimal with an
`0x` prefix. -/
def formatPtr (addr : Nat) : String :=
  "0x" ++ String.mk (Nat.toDigits 16 addr)

/-- The `options` record of feature.go: requested debug name and the
caller-depth counter used for the name fallback. -/
structure Options where
  name : String
  depth : Nat

/-- Go's `Option` configurator type (`func(*options)`), value-passing. -/
abbrev KeyOption : Type := Options → Options

/-- `WithName(name)`: sets the debug name (feature.go). -/
def WithName (name : String) : KeyOption :=
  fun o => { o with name := name }

/-- `appendCallerDepthIncr`: appends an option incrementing the caller
depth, called by each exported constructor (feature.go). -/
def appendCallerDepthIncr (opts : List KeyOption) : List KeyOption :=
  opts ++ [fun o => { o with depth := o.depth + 1 }]

/-- `defaultOptions` (feature.go): empty name, depth 0. -/
def defaultOptions : Options :=
  { name := "", depth := 0 }

/-- `optionsFrom` (feature.go): apply the configurators in order. -/
def optionsFrom (opts : List KeyOption) : Options :=
  opts.foldl (fun o f => f o) defaultOptions

/-- Source location of the `runtime.Caller` call inside `computeKeyName`
(feature.go line 604); frame index 0 for its `runtime.Caller`. -/
def computeKeyNameFrame : Frame := ("feature.go", 604)

/-- Source location of the `computeKeyName` call inside `New`. -/
def newFrame : Frame := ("feature.go", 663)

/-- Source location of the `New` call inside `NewBool`. -/
def newBoolFrame : Frame := ("feature.go", 629)

/-- Source location of the `NewBool` call inside `NewNamedBool`. -/
def newNamedBoolFrame : Frame := ("feature.go", 644)

/-- Source location of the `New` call inside `NewNamed`. -/
def newNamedFrame : Frame := ("feature.go", 680)

/-- `computeKeyName` (feature.go 594-610). `stack` is the call stack as
seen by `runtime.Caller` inside this function. A non-empty `name` is
returned verbatim; otherwise the fallback is `anonymous@<ptr>`, enhanced
to `anonymous(<file>:<line>)@<ptr>` when `runtime.Caller(1+depth)`
resolves the user's construction call site. -/
def computeKeyName (stack : List Frame) (ident : Nat) (name : String) (depth : Nat) : String :=
  if name = "" then
    match runtimeCaller stack (1 + depth) with
    | some (file, line) =>
        "anonymous(" ++ file ++ ":" ++ toString line ++ ")@" ++ formatPtr ident
    | none => "anonymous@" ++ formatPtr ident
  else
    name

/-- The internal `key` struct (feature.go 684-687). Its fields do not
depend on the value type parameter, so it is embedded unparameterized;
the value type enters only through the `GoType` argument of each
operation (exactly where Go uses the type assertion). -/
structure Key where
  name : String
  ident : Nat
  deriving DecidableEq, Repr

/-- The internal `boolKey` struct: embeds `key` with `V` = bool and adds
no identity of its own (feature.go 690-692). -/
structure BoolKey where
  toKey : Key
  deriving DecidableEq, Repr

/-- `New` (feature.go 657-666). `callers` are the stack frames above
`New` itself (head = `New`'s immediate caller); `next` is the allocation
counter providing the fresh token address. -/
def New (callers : List Frame) (options : List KeyOption) (next : Nat) : Key × Nat :=
  let options := appendCallerDepthIncr options
  let opts := optionsFrom options
  let ident := next
  ({ name := computeKeyName (computeKeyNameFrame :: newFrame :: callers) ident opts.name opts.depth
     ident := ident },
   next + 1)

/-- `NewBool` (feature.go 626-630): appends a depth increment and
forwards to `New` with bool; the forwarding adds one stack frame. -/
def NewBool (callers : List Frame) (options : List KeyOption) (next : Nat) : BoolKey × Nat :=
  let options := appendCallerDepthIncr options
  let r := New (newBoolFrame :: callers) options next
  ({ toKey := r.1 }, r.2)

/-- `NewNamed` (feature.go 677-681): appends a depth increment and
forwards to `New` with `WithName name` prepended. -/
def NewNamed (name : String) (callers : List Frame) (options : List KeyOption) (next : Nat) : Key × Nat :=
  let options := appendCallerDepthIncr options
  New (newNamedFrame :: callers) (WithName name :: options) next

/-- `NewNamedBool` (feature.go 641-645): appends a depth increment and
forwards to `NewBool` with `WithName name` prepended. -/
def NewNamedBool (name : String) (callers : List Frame) (options : List KeyOption) (next : Nat) : BoolKey × Nat :=
  let options := appendCallerDepthIncr options
  NewBool (newNamedBoolFrame :: callers) (WithName name :: options) next

/-- One user-facing construction call, with its caller stack and extra
options: the four exported constructors. -/
inductive Ctor where
  | viaNew (callers : List Frame) (options : List KeyOption)
  | viaNewBool (callers : List Frame) (options : List KeyOption)
  | viaNewNamed (name : String) (callers : List Frame) (options : List KeyOption)
  | viaNewNamedBool (name : String) (callers : List Frame) (options : List KeyOption)

/-- Run one construction call against the allocation counter, returning
the underlying `key` (a `boolKey` adds no identity of its own). -/
def runCtor : Ctor → Nat → Key × Nat
  | Ctor.viaNew callers options, next => New callers options next
  | Ctor.viaNewBool callers options, next =>
      let r := NewBool callers options next
      (r.1.toKey, r.2)
  | Ctor.viaNewNamed name callers options, next => NewNamed name callers options next
  | Ctor.viaNewNamedBool name callers options, next =>
      let r := NewNamedBool name callers options next
      (r.1.toKey, r.2)

/-- Go's type assertion `x.(V)` applied to the result of `ctx.Value`:
a nil interface (`none`) or a value of a foreign dynamic type yields
(zero value, false); a value of dynamic type `V` yields (value, true). -/
def typeAssert {V : Type} (τ : GoType V) : Option GoVal → V × Bool
  | some g =>
      match τ.proj g with
      | some v => (v, true)
      | none => (τ.zero, false)
  | none => (τ.zero, false)

/-- `key.TryGet` (feature.go 734-738): `val, ok := ctx.Value(k.ident).(V)`. -/
def Key.TryGet {V : Type} (k : Key) (τ : GoType V) (ctx : Ctx) : V × Bool :=
  typeAssert τ (Ctx.value ctx k.ident)

/-- `key.WithValue` (feature.go 721-724): `context.WithValue(ctx, k.ident, value)`,
which derives a child context and never mutates `ctx`. -/
def Key.WithValue {V : Type} (k : Key) (τ : GoType V) (ctx : Ctx) (value : V) : Ctx :=
  (k.ident, τ.inj value) :: ctx

/-- `key.String` (feature.go 694-698): the debug name stored at
construction. -/
def Key.str (k : Key) : String :=
  k.name

/-- The `Inspection` struct (inspection.go 9-17): the inspected key, the
retrieved value (zero value when absent) and the presence flag. -/
structure Inspection (V : Type) where
  key : Key
  value : V
  ok : Bool

/-- `key.Inspect` (feature.go 706-715). -/
def Key.Inspect {V : Type} (k : Key) (τ : GoType V) (ctx : Ctx) : Inspection V :=
  let r := k.TryGet τ ctx
  { key := k, value := r.1, ok := r.2 }

/-- `Inspection.Get` (inspection.go 21-23). -/
def Inspection.Get {V : Type} (i : Inspection V) : V :=
  i.value

/-- `Inspection.TryGet` (inspection.go 26-28). -/
def Inspection.TryGet {V : Type} (i : Inspection V) : V × Bool :=
  (i.value, i.ok)

/-- `Inspection.GetOrDefault` (inspection.go 31-37). -/
def Inspection.GetOrDefault {V : Type} (i : Inspection V) (defaultValue : V) : V :=
  if i.ok then i.value else defaultValue

/-- `Inspection.MustGet` (inspection.go 40-46); the panic is modelled by
`Except.error` carrying the panic message. -/
def Inspection.MustGet {V : Type} (i : Inspection V) : Except String V :=
  if !i.ok then
    Except.error ("key " ++ i.key.str ++ " is not set in context")
  else
    Except.ok i.value

/-- `Inspection.IsSet` (inspection.go 49-51). -/
def Inspection.IsSet {V : Type} (i : Inspection V) : Bool :=
  i.ok

/-- `Inspection.IsNotSet` (inspection.go 54-56). -/
def Inspection.IsNotSet {V : Type} (i : Inspection V) : Bool :=
  !i.ok

/-- `Inspection.String` (inspection.go 61-67): `"<name>: <value>"` when
present, `"<name>: <not set>"` when absent. -/
def Inspection.str {V : Type} (τ : GoType V) (i : Inspection V) : String :=
  if !i.ok then
    i.key.str ++ ": <not set>"
  else
    i.key.str ++ ": " ++ τ.fmtV i.value

/-- `key.Get` (feature.go 726-730): delegates to the inspection. -/
def Key.Get {V : Type} (k : Key) (τ : GoType V) (ctx : Ctx) : V :=
  (k.Inspect τ ctx).Get

/-- `key.GetOrDefault` (feature.go 740-744). -/
def Key.GetOrDefault {V : Type} (k : Key) (τ : GoType V) (ctx : Ctx) (defaultValue : V) : V :=
  (k.Inspect τ ctx).GetOrDefault defaultValue

/-- `key.MustGet` (feature.go 746-750). -/
def Key.MustGet {V : Type} (k : Key) (τ : GoType V) (ctx : Ctx) : Except String V :=
  (k.Inspect τ ctx).MustGet

/-- `key.IsSet` (feature.go 752-755). -/
def Key.IsSet {V : Type} (k : Key) (τ : GoType V) (ctx : Ctx) : Bool :=
  (k.Inspect τ ctx).IsSet

/-- `key.IsNotSet` (feature.go 757-760). -/
def Key.IsNotSet {V : Type} (k : Key) (τ : GoType V) (ctx : Ctx) : Bool :=
  (k.Inspect τ ctx).IsNotSet

/-- `key.DebugValue` (feature.go 294-303 of the earlier revision, same
format as `Inspection.String`): `"<name>: <value>"` or
`"<name>: <not set>"`. -/
def Key.DebugValue {V : Type} (k : Key) (τ : GoType V) (ctx : Ctx) : String :=
  let keyName := k.str
  let r := k.TryGet τ ctx
  if !r.2 then
    keyName ++ ": <not set>"
  else
    keyName ++ ": " ++ τ.fmtV r.1

/-- The `BoolInspection` struct (inspection.go 71-73). -/
structure BoolInspection where
  toInspection : Inspection Bool

/-- `BoolInspection.Enabled` (inspection.go 77-79). -/
def BoolInspection.Enabled (i : BoolInspection) : Bool :=
  i.toInspection.value

/-- `BoolInspection.Disabled` (inspection.go 82-84). -/
def BoolInspection.Disabled (i : BoolInspection) : Bool :=
  !i.Enabled

/-- `BoolInspection.ExplicitlyDisabled` (inspection.go 88-90). -/
def BoolInspection.ExplicitlyDisabled (i : BoolInspection) : Bool :=
  i.toInspection.ok && !i.toInspection.value

/-- `BoolInspection.String` (inspection.go 95-97): delegates to the
embedded inspection. -/
def BoolInspection.str (i : BoolInspection) : String :=
  i.toInspection.str boolTy

/-- `boolKey.InspectBool` (feature.go 763-765). -/
def BoolKey.InspectBool (b : BoolKey) (ctx : Ctx) : BoolInspection :=
  { toInspection := b.toKey.Inspect boolTy ctx }

/-- `boolKey.Enabled` (feature.go 768-770). -/
def BoolKey.Enabled (b : BoolKey) (ctx : Ctx) : Bool :=
  (b.InspectBool ctx).Enabled

/-- `boolKey.Disabled` (feature.go 773-775). -/
def BoolKey.Disabled (b : BoolKey) (ctx : Ctx) : Bool :=
  (b.InspectBool ctx).Disabled

/-- `boolKey.ExplicitlyDisabled` (feature.go 778-780). -/
def BoolKey.ExplicitlyDisabled (b : BoolKey) (ctx : Ctx) : Bool :=
  (b.InspectBool ctx).ExplicitlyDisabled

/-- `boolKey.WithEnabled` (feature.go 783-785). -/
def BoolKey.WithEnabled (b : BoolKey) (ctx : Ctx) : Ctx :=
  b.toKey.WithValue boolTy ctx true

/-- `boolKey.WithDisabled` (feature.go 788-790). -/
def BoolKey.WithDisabled (b : BoolKey) (ctx : Ctx) : Ctx :=
  b.toKey.WithValue boolTy ctx false

/-- Escaping of one character inside a Go double-quoted literal as
produced by `fmt` verb q, for quote and backslash (other printable
characters are rendered verbatim; key names in this package are
printable). -/
def escChar (c : Char) : List Char :=
  if c = '"' then ['\\', '"']
  else if c = '\\' then ['\\', '\\']
  else [c]

/-- `fmt` verb q on a string: a double-quoted Go string literal. -/
def goQuote (s : String) : String :=
  "\"" ++ String.mk (s.data.map escChar).flatten ++ "\""

/-- Inverse of the escaping: recovers the character list from the body
of a quoted literal, `none` on malformed input (a lone backslash, an
unknown escape, or an unescaped quote). -/
def unescape : List Char → Option (List Char)
  | [] => some []
  | [c] => if c = '\\' ∨ c = '"' then none else some [c]
  | c :: c2 :: rest =>
      if c = '\\' then
        if c2 = '"' ∨ c2 = '\\' then (unescape rest).map (fun l => c2 :: l) else none
      else if c = '"' then none
      else (unescape (c2 :: rest)).map (fun l => c :: l)

/-- `key.GoString` (gostring.go 12-16):
`feature.New[<type>](feature.WithName(<quoted name>))`. -/
def Key.GoString {V : Type} (k : Key) (τ : GoType V) : String :=
  "feature.New[" ++ τ.typeName ++ "](feature.WithName(" ++ goQuote k.name ++ "))"

/-- `boolKey.GoString` (gostring.go 22-24):
`feature.NewBool(feature.WithName(<quoted name>))`. -/
def BoolKey.GoString (b : BoolKey) : String :=
  "feature.NewBool(feature.WithName(" ++ goQuote b.toKey.name ++ "))"

/-- Go evaluation of the expression `feature.New[T](feature.WithName("n"))`
rendered as a string: the proposition that string `s` is exactly that
expression for type `τ` and name `n`, in which case evaluating it calls
`New` with the single option `WithName n`. -/
def EvaluatesToNew {V : Type} (s : String) (τ : GoType V) (n : String) : Prop :=
  s = "feature.New[" ++ τ.typeName ++ "](feature.WithName(" ++ goQuote n ++ "))"

/-- Every constructor allocates exactly one token: the produced key's
token address is the incoming counter value. -/
theorem runCtor_ident (c : Ctor) (next : Nat) : (runCtor c next).1.ident = next := by
  cases c <;> rfl

/-- Every constructor advances the allocation counter by one. -/
theorem runCtor_next (c : Ctor) (next : Nat) : (runCtor c next).2 = next + 1 := by
  cases c <;> rfl

theorem Ctx.value_cons (t : Nat) (g : GoVal) (rest : Ctx) (tok : Nat) :
    Ctx.value ((t, g) :: rest) tok = if t = tok then some g else Ctx.value rest tok := rfl

/-- When the dynamic lookup-and-assert reports absent, the returned pair
is exactly (zero value, false). -/
theorem typeAssert_snd_false {V : Type} (τ : GoType V) (o : Option GoVal)
    (h : (typeAssert τ o).2 = false) : typeAssert τ o = (τ.zero, false) := by
  cases o with
  | none => rfl
  | some g =>
      cases hp : τ.proj g with
      | none => simp [typeAssert, hp]
      | some v => simp [typeAssert, hp] at h

/-- `IsSet` is the second component of `TryGet`. -/
theorem Key.isSet_eq_tryGet_snd {V : Type} (k : Key) (τ : GoType V) (ctx : Ctx) :
    k.IsSet τ ctx = (k.TryGet τ ctx).2 := rfl

/-- The name computed at construction is never the empty string: an
explicit non-empty name is kept, and both anonymous fallbacks start with
"anonymous". -/
theorem computeKeyName_ne_empty (stack : List Frame) (ident : Nat) (name : String) (depth : Nat) :
    computeKeyName stack ident name depth ≠ "" := by
  unfold computeKeyName
  by_cases h : name = ""
  · rw [if_pos h]
    cases hc : runtimeCaller stack (1 + depth) with
    | none => simp [formatPtr, String.ext_iff]
    | some fr => cases fr with
      | mk file line => simp [String.ext_iff]
  · rw [if_neg h]; exact h

/-- A key produced by any constructor has a non-empty display name. -/
theorem runCtor_name_ne_empty (c : Ctor) (next : Nat) : (runCtor c next).1.name ≠ "" := by
  cases c <;>
    simp only [runCtor, New, NewBool, NewNamed, NewNamedBool] <;>
    exact computeKeyName_ne_empty _ _ _ _

/-- Prepending a plain (non-special) character commutes with
unescaping. -/
theorem unescape_cons_plain (c : Char) (hb : c ≠ '\\') (hq : c ≠ '"') (t : List Char) :
    unescape (c :: t) = (unescape t).map (fun l => c :: l) := by
  cases t with
  | nil => simp [unescape, hb, hq]
  | cons x xs => simp [unescape, hb, hq]

/-- Prepending an escaped quote or backslash commutes with unescaping. -/
theorem unescape_cons_escaped (c : Char) (h : c = '"' ∨ c = '\\') (t : List Char) :
    unescape ('\\' :: c :: t) = (unescape t).map (fun l => c :: l) := by
  simp [unescape, h]

/-- Unescaping inverts the escaping of a character list. -/
theorem unescape_escape (l : List Char) :
    unescape (l.map escChar).flatten = some l := by
  induction l with
  | nil => rfl
  | cons c rest ih =>
      by_cases hq : c = '"'
      · subst hq
        rw [List.map_cons, List.flatten_cons,
          show escChar '"' = ['\\', '"'] from rfl, List.cons_append, List.cons_append,
          List.nil_append, unescape_cons_escaped _ (Or.inl rfl), ih]
        rfl
      · by_cases hb : c = '\\'
        · subst hb
          rw [List.map_cons, List.flatten_cons,
            show escChar '\\' = ['\\', '\\'] from rfl, List.cons_append, List.cons_append,
            List.nil_append, unescape_cons_escaped _ (Or.inr rfl), ih]
          rfl
        · rw [List.map_cons, List.flatten_cons,
            show escChar c = [c] from by simp [escChar, hq, hb], List.cons_append,
            List.nil_append, unescape_cons_plain c hb hq, ih]
          rfl

/-- The Go verb-q quotation is injective: a quoted literal determines
the quoted name. -/
theorem goQuote_injective (a b : String) (h : goQuote a = goQuote b) : a = b := by
  have hdata : ('"' :: (a.data.map escChar).flatten) ++ ['"']
      = ('"' :: (b.data.map escChar).flatten) ++ ['"'] := by
    have := congrArg String.data h
    simpa [goQuote, String.data_append] using this
  have hmid : (a.data.map escChar).flatten = (b.data.map escChar).flatten := by
    have := List.append_cancel_right hdata
    exact List.tail_eq_of_cons_eq this
  have := unescape_escape a.data
  rw [hmid, unescape_escape b.data] at this
  have hd : a.data = b.data := by
    exact Option.some.inj this.symm
  exact String.ext hd

/-- Binding under one token leaves the lookup of every other token
unchanged. -/
theorem Ctx.value_withValue_ne {V : Type} (τ : GoType V) (k : Key) (ctx : Ctx) (v : V)
    (tok : Nat) (h : tok ≠ k.ident) :
    Ctx.value (k.WithValue τ ctx v) tok = Ctx.value ctx tok := by
  unfold Key.WithValue
  rw [Ctx.value_cons, if_neg (fun he => h he.symm)]

/-- `TryGet` through a key with a different token is unaffected by a
bind. -/
theorem Key.tryGet_withValue_ne {V W : Type} (τ : GoType V) (τ2 : GoType W)
    (k k2 : Key) (ctx : Ctx) (v : V) (h : k2.ident ≠ k.ident) :
    k2.TryGet τ2 (k.WithValue τ ctx v) = k2.TryGet τ2 ctx := by
  unfold Key.TryGet
  rw [Ctx.value_withValue_ne τ k ctx v k2.ident h]

/-- C1. Identity uniqueness: two key accessors constructed by separate
calls to New / NewBool / NewNamed / NewNamedBool (any combination of
names, options and call sites) hold distinct identity tokens, so after
binding a value under the first accessor A, the second accessor B still
reads absent — `B.TryGet` returns the zero value with false and
`B.IsSet` is false — on any scope on which B was not already set. -/
theorem identity_uniqueness {V W : Type} (τA : GoType V) (τB : GoType W)
    (c₁ c₂ : Ctor) (n₀ : Nat) (ctx : Ctx) (v : V)
    (hB : Key.IsSet (runCtor c₂ (runCtor c₁ n₀).2).1 τB ctx = false) :
    Key.TryGet (runCtor c₂ (runCtor c₁ n₀).2).1 τB
        (Key.WithValue (runCtor c₁ n₀).1 τA ctx v) = (τB.zero, false) ∧
    Key.IsSet (runCtor c₂ (runCtor c₁ n₀).2).1 τB
        (Key.WithValue (runCtor c₁ n₀).1 τA ctx v) = false := by
  have hA : (runCtor c₁ n₀).1.ident = n₀ := runCtor_ident c₁ n₀
  have hn : (runCtor c₁ n₀).2 = n₀ + 1 := runCtor_next c₁ n₀
  have hBid : (runCtor c₂ (runCtor c₁ n₀).2).1.ident = n₀ + 1 := by
    rw [hn]; exact runCtor_ident c₂ (n₀ + 1)
  have hne : (runCtor c₂ (runCtor c₁ n₀).2).1.ident ≠ (runCtor c₁ n₀).1.ident := by
    rw [hA, hBid]; omega
  have htry : Key.TryGet (runCtor c₂ (runCtor c₁ n₀).2).1 τB
      (Key.WithValue (runCtor c₁ n₀).1 τA ctx v)
      = Key.TryGet (runCtor c₂ (runCtor c₁ n₀).2).1 τB ctx :=
    Key.tryGet_withValue_ne τA τB _ _ ctx v hne
  have habs : Key.TryGet (runCtor c₂ (runCtor c₁ n₀).2).1 τB ctx = (τB.zero, false) :=
    typeAssert_snd_false τB _ hB
  refine ⟨htry.trans habs, ?_⟩
  rw [Key.isSet_eq_tryGet_snd, htry, habs]

/-- C2. Bind/read round trip and zero-vs-unset: binding any value
(including the zero value) makes `TryGet` return it with true and
`IsSet` true; on a scope where the key was never bound, `TryGet`
returns the zero value with false and `IsSet` is false; `IsNotSet` is
always the negation of `IsSet`, which is the presence bit of `TryGet`. -/
theorem bind_read_roundtrip {V : Type} (τ : GoType V) (k : Key) (ctx : Ctx) (v : V)
    (hunset : Ctx.value ctx k.ident = none) :
    k.TryGet τ (k.WithValue τ ctx v) = (v, true) ∧
    k.IsSet τ (k.WithValue τ ctx v) = true ∧
    k.TryGet τ ctx = (τ.zero, false) ∧
    k.IsSet τ ctx = false ∧
    (∀ ctx2 : Ctx, k.IsNotSet τ ctx2 = !k.IsSet τ ctx2 ∧
      k.IsSet τ ctx2 = (k.TryGet τ ctx2).2) := by
  have hbound : k.TryGet τ (k.WithValue τ ctx v) = (v, true) := by
    unfold Key.TryGet Key.WithValue
    rw [Ctx.value_cons]
    simp [typeAssert, τ.proj_inj v]
  have hnone : k.TryGet τ ctx = (τ.zero, false) := by
    unfold Key.TryGet
    rw [hunset]
    rfl
  refine ⟨hbound, ?_, hnone, ?_, ?_⟩
  · rw [Key.isSet_eq_tryGet_snd, hbound]
  · rw [Key.isSet_eq_tryGet_snd, hnone]
  · intro ctx2
    exact ⟨rfl, rfl⟩

/-- C3. Type safety against foreign writes: when the scope stores, under
the key's token, a dynamic value whose type assertion to V fails (a
write not made through this accessor), `TryGet` reports
(zero value, false), `Get` the zero value, `IsSet` false, and `MustGet`
fails with the key-not-set error — never a cast error and never a
foreign-typed value. -/
theorem foreign_write_safety {V : Type} (τ : GoType V) (k : Key) (ctx : Ctx) (g : GoVal)
    (hstored : Ctx.value ctx k.ident = some g) (hforeign : τ.proj g = none) :
    k.TryGet τ ctx = (τ.zero, false) ∧
    k.Get τ ctx = τ.zero ∧
    k.IsSet τ ctx = false ∧
    k.MustGet τ ctx = Except.error ("key " ++ k.str ++ " is not set in context") := by
  have htry : k.TryGet τ ctx = (τ.zero, false) := by
    unfold Key.TryGet
    rw [hstored]
    simp [typeAssert, hforeign]
  refine ⟨htry, ?_, ?_, ?_⟩
  · show (k.Inspect τ ctx).Get = τ.zero
    unfold Key.Inspect
    rw [htry]
    rfl
  · rw [Key.isSet_eq_tryGet_snd, htry]
  · show (k.Inspect τ ctx).MustGet = _
    unfold Key.Inspect
    rw [htry]
    rfl

/-- C4. Scope immutability / frame condition of bind: `WithValue`
derives a new scope in which only the bound token's lookup changed —
every other token's lookup, and `TryGet` through every accessor with a
different token, agree with the original scope, while the bound token
now maps to the freshly boxed value. The original scope value is
untouched (the embedding of `context.WithValue` is purely functional,
as is Go's: it allocates a child node). -/
theorem bind_frame_condition {V : Type} (τ : GoType V) (k : Key) (ctx : Ctx) (v : V) :
    (∀ tok : Nat, tok ≠ k.ident →
      Ctx.value (k.WithValue τ ctx v) tok = Ctx.value ctx tok) ∧
    Ctx.value (k.WithValue τ ctx v) k.ident = some (τ.inj v) ∧
    (∀ (W : Type) (τ2 : GoType W) (k2 : Key), k2.ident ≠ k.ident →
      k2.TryGet τ2 (k.WithValue τ ctx v) = k2.TryGet τ2 ctx ∧
      k2.IsSet τ2 (k.WithValue τ ctx v) = k2.IsSet τ2 ctx) := by
  refine ⟨fun tok h => Ctx.value_withValue_ne τ k ctx v tok h, ?_, ?_⟩
  · unfold Key.WithValue
    rw [Ctx.value_cons, if_pos rfl]
  · intro W τ2 k2 h
    have := Key.tryGet_withValue_ne τ τ2 k k2 ctx v h
    exact ⟨this, by rw [Key.isSet_eq_tryGet_snd, Key.isSet_eq_tryGet_snd, this]⟩

/-- Reading back the value just bound under the same key. -/
theorem Key.tryGet_withValue_self {V : Type} (τ : GoType V) (k : Key) (ctx : Ctx) (v : V) :
    k.TryGet τ (k.WithValue τ ctx v) = (v, true) := by
  unfold Key.TryGet Key.WithValue
  rw [Ctx.value_cons, if_pos rfl]
  simp [typeAssert, τ.proj_inj v]

/-- A key whose token has no binding in the chain reads absent. -/
theorem Key.tryGet_of_value_none {V : Type} (τ : GoType V) (k : Key) (ctx : Ctx)
    (h : Ctx.value ctx k.ident = none) : k.TryGet τ ctx = (τ.zero, false) := by
  unfold Key.TryGet
  rw [h]
  rfl

theorem BoolKey.enabled_eq (b : BoolKey) (ctx : Ctx) :
    b.Enabled ctx = (b.toKey.TryGet boolTy ctx).1 := rfl

theorem BoolKey.disabled_eq (b : BoolKey) (ctx : Ctx) :
    b.Disabled ctx = !(b.toKey.TryGet boolTy ctx).1 := rfl

theorem BoolKey.explicitlyDisabled_eq (b : BoolKey) (ctx : Ctx) :
    b.ExplicitlyDisabled ctx
      = ((b.toKey.TryGet boolTy ctx).2 && !(b.toKey.TryGet boolTy ctx).1) := rfl

/-- C5. Three-state boolean semantics: on a scope where the flag was
never bound, Enabled is false, Disabled is true and ExplicitlyDisabled
is false; on any scope just extended by WithDisabled those read false,
true, true; on any scope just extended by WithEnabled they read true,
false, false; and in general ExplicitlyDisabled holds exactly when the
key is present with value false. -/
theorem bool_three_state (b : BoolKey) (ctx ctx2 : Ctx)
    (hfresh : Ctx.value ctx b.toKey.ident = none) :
    (b.Enabled ctx = false ∧ b.Disabled ctx = true ∧ b.ExplicitlyDisabled ctx = false) ∧
    (b.Enabled (b.WithDisabled ctx2) = false ∧ b.Disabled (b.WithDisabled ctx2) = true ∧
      b.ExplicitlyDisabled (b.WithDisabled ctx2) = true) ∧
    (b.Enabled (b.WithEnabled ctx2) = true ∧ b.Disabled (b.WithEnabled ctx2) = false ∧
      b.ExplicitlyDisabled (b.WithEnabled ctx2) = false) ∧
    (∀ ctx3 : Ctx, b.ExplicitlyDisabled ctx3 = true ↔
      b.toKey.TryGet boolTy ctx3 = (false, true)) := by
  have hf : b.toKey.TryGet boolTy ctx = (false, false) :=
    Key.tryGet_of_value_none boolTy b.toKey ctx hfresh
  have hd : b.toKey.TryGet boolTy (b.WithDisabled ctx2) = (false, true) :=
    Key.tryGet_withValue_self boolTy b.toKey ctx2 false
  have he : b.toKey.TryGet boolTy (b.WithEnabled ctx2) = (true, true) :=
    Key.tryGet_withValue_self boolTy b.toKey ctx2 true
  refine ⟨⟨?_, ?_, ?_⟩, ⟨?_, ?_, ?_⟩, ⟨?_, ?_, ?_⟩, ?_⟩
  · rw [BoolKey.enabled_eq, hf]
  · rw [BoolKey.disabled_eq, hf]; rfl
  · rw [BoolKey.explicitlyDisabled_eq, hf]; rfl
  · rw [BoolKey.enabled_eq, hd]
  · rw [BoolKey.disabled_eq, hd]; rfl
  · rw [BoolKey.explicitlyDisabled_eq, hd]; rfl
  · rw [BoolKey.enabled_eq, he]
  · rw [BoolKey.disabled_eq, he]; rfl
  · rw [BoolKey.explicitlyDisabled_eq, he]; rfl
  · intro ctx3
    rw [BoolKey.explicitlyDisabled_eq]
    rcases hr : b.toKey.TryGet boolTy ctx3 with ⟨val, ok⟩
    cases val <;> cases ok <;> simp

/-- C6. MustGet is the only failing operation: when the key is present
MustGet returns the bound value; when absent it fails with the
key-not-set message, which contains the accessor's resolved display
name and the phrase indicating the key is unset; the inspection's
MustGet behaves identically. (All other operations are total Lean
functions by construction, mirroring the Go code's lack of any other
failure point.) -/
theorem mustget_error_behavior {V : Type} (τ : GoType V) (k : Key) (ctx : Ctx) :
    (k.IsSet τ ctx = true → k.MustGet τ ctx = Except.ok (k.Get τ ctx) ∧
      (k.Inspect τ ctx).MustGet = Except.ok (k.Get τ ctx)) ∧
    (k.IsSet τ ctx = false →
      k.MustGet τ ctx = Except.error ("key " ++ k.str ++ " is not set in context") ∧
      (k.Inspect τ ctx).MustGet
        = Except.error ("key " ++ k.str ++ " is not set in context")) ∧
    (∃ pre post, "key " ++ k.str ++ " is not set in context" = pre ++ k.str ++ post) ∧
    (∃ pre post,
      "key " ++ k.str ++ " is not set in context" = pre ++ "is not set" ++ post) := by
  refine ⟨?_, ?_, ⟨"key ", " is not set in context", rfl⟩, ?_⟩
  · intro h
    have : (k.Inspect τ ctx).MustGet = Except.ok (k.Get τ ctx) := by
      unfold Inspection.MustGet
      have hok : (k.Inspect τ ctx).ok = true := h
      rw [hok]
      rfl
    exact ⟨this, this⟩
  · intro h
    have : (k.Inspect τ ctx).MustGet
        = Except.error ("key " ++ k.str ++ " is not set in context") := by
      unfold Inspection.MustGet
      have hok : (k.Inspect τ ctx).ok = false := h
      rw [hok]
      rfl
    exact ⟨this, this⟩
  · refine ⟨"key " ++ k.str ++ " ", " in context", ?_⟩
    rw [show (" is not set in context" : String) = " " ++ "is not set" ++ " in context" from rfl]
    simp [String.append_assoc]

/-- C7. Inspection freeze: the snapshot taken from a scope stores the
key reference, the value-or-default and the presence flag of that scope
at inspection time; its accessors keep answering from those frozen
fields, so a later bind on the scope does not change them — on a scope
where the key was unset, the old snapshot still reports absent while a
snapshot of the extended scope reports the new value as present. -/
theorem inspection_freeze {V : Type} (τ : GoType V) (k : Key) (s : Ctx) (other : V)
    (hunset : Ctx.value s k.ident = none) :
    (k.Inspect τ s).key = k ∧
    (k.Inspect τ s).TryGet = k.TryGet τ s ∧
    (k.Inspect τ s).IsSet = k.IsSet τ s ∧
    (k.Inspect τ s).Get = k.Get τ s ∧
    (k.Inspect τ s).str τ = k.DebugValue τ s ∧
    ((k.Inspect τ s).IsSet = false ∧
      (k.Inspect τ (k.WithValue τ s other)).IsSet = true ∧
      (k.Inspect τ (k.WithValue τ s other)).Get = other) := by
  refine ⟨rfl, rfl, rfl, rfl, rfl, ?_, ?_, ?_⟩
  · show (k.TryGet τ s).2 = false
    rw [Key.tryGet_of_value_none τ k s hunset]
  · show (k.TryGet τ (k.WithValue τ s other)).2 = true
    rw [Key.tryGet_withValue_self]
  · show (k.TryGet τ (k.WithValue τ s other)).1 = other
    rw [Key.tryGet_withValue_self]

/-- A non-empty requested name is kept verbatim. -/
theorem computeKeyName_of_ne (stack : List Frame) (ident : Nat) (name : String) (depth : Nat)
    (h : name ≠ "") : computeKeyName stack ident name depth = name := by
  unfold computeKeyName
  rw [if_neg h]

/-- C8. Naming resolution: a non-empty explicit name is used verbatim by
every constructor; an absent or explicitly empty name triggers the
fallback `anonymous(<file>:<line>)@<token>` where the source location is
the user's own construction call site — the head of the caller stack —
for every forwarding depth (New, NewBool, NewNamed, NewNamedBool); with
no resolvable call site the name degrades to `anonymous@<token>`; and
the display name reported by String is the field fixed at construction
for every constructed key. -/
theorem naming_resolution (nm file : String) (line : Nat) (rest : List Frame) (next : Nat)
    (hnm : nm ≠ "") :
    ((NewNamed nm ((file, line) :: rest) [] next).1.name = nm ∧
     (NewNamedBool nm ((file, line) :: rest) [] next).1.toKey.name = nm ∧
     (New ((file, line) :: rest) [WithName nm] next).1.name = nm ∧
     (NewBool ((file, line) :: rest) [WithName nm] next).1.toKey.name = nm) ∧
    ((New ((file, line) :: rest) [] next).1.name
        = "anonymous(" ++ file ++ ":" ++ toString line ++ ")@" ++ formatPtr next ∧
     (NewBool ((file, line) :: rest) [] next).1.toKey.name
        = "anonymous(" ++ file ++ ":" ++ toString line ++ ")@" ++ formatPtr next ∧
     (NewNamed "" ((file, line) :: rest) [] next).1.name
        = "anonymous(" ++ file ++ ":" ++ toString line ++ ")@" ++ formatPtr next ∧
     (NewNamedBool "" ((file, line) :: rest) [] next).1.toKey.name
        = "anonymous(" ++ file ++ ":" ++ toString line ++ ")@" ++ formatPtr next) ∧
    ((New [] [] next).1.name = "anonymous@" ++ formatPtr next ∧
     (NewBool [] [] next).1.toKey.name = "anonymous@" ++ formatPtr next ∧
     (NewNamed "" [] [] next).1.name = "anonymous@" ++ formatPtr next ∧
     (NewNamedBool "" [] [] next).1.toKey.name = "anonymous@" ++ formatPtr next) ∧
    (∀ (c : Ctor) (next2 : Nat), Key.str (runCtor c next2).1 = (runCtor c next2).1.name) := by
  refine ⟨⟨?_, ?_, ?_, ?_⟩, ⟨rfl, rfl, rfl, rfl⟩, ⟨rfl, rfl, rfl, rfl⟩, fun c next2 => rfl⟩
  · exact computeKeyName_of_ne
      (computeKeyNameFrame :: newFrame :: newNamedFrame :: (file, line) :: rest) next nm 2 hnm
  · exact computeKeyName_of_ne
      (computeKeyNameFrame :: newFrame :: newBoolFrame :: newNamedBoolFrame
        :: (file, line) :: rest) next nm 3 hnm
  · exact computeKeyName_of_ne
      (computeKeyNameFrame :: newFrame :: (file, line) :: rest) next nm 1 hnm
  · exact computeKeyName_of_ne
      (computeKeyNameFrame :: newFrame :: newBoolFrame :: (file, line) :: rest) next nm 2 hnm

/-- C9. Textual representation format: the inspection's string rendering
is exactly `<name>: <value>` when the key is present and exactly
`<name>: <not set>` when absent, with `<name>` the key's resolved
display name; `DebugValue` produces the identical rendering, and the
boolean inspection delegates to the generic one. -/
theorem debug_format {V : Type} (τ : GoType V) (k : Key) (ctx : Ctx) :
    ((k.Inspect τ ctx).str τ =
      if k.IsSet τ ctx then k.str ++ ": " ++ τ.fmtV (k.Get τ ctx)
      else k.str ++ ": <not set>") ∧
    k.DebugValue τ ctx = (k.Inspect τ ctx).str τ ∧
    (∀ b : BoolKey, (b.InspectBool ctx).str = (b.toKey.Inspect boolTy ctx).str boolTy) := by
  refine ⟨?_, rfl, fun b => rfl⟩
  cases hok : (k.TryGet τ ctx).2 with
  | false =>
      have h1 : (k.Inspect τ ctx).str τ = k.str ++ ": <not set>" := by
        unfold Inspection.str
        have : (k.Inspect τ ctx).ok = false := hok
        rw [this]
        rfl
      rw [h1, Key.isSet_eq_tryGet_snd, hok, if_neg (by simp)]
  | true =>
      have h1 : (k.Inspect τ ctx).str τ = k.str ++ ": " ++ τ.fmtV (k.Get τ ctx) := by
        unfold Inspection.str
        have : (k.Inspect τ ctx).ok = true := hok
        rw [this]
        rfl
      rw [h1, Key.isSet_eq_tryGet_snd, hok, if_pos (by simp)]

theorem New_ident (callers : List Frame) (options : List KeyOption) (next : Nat) :
    (New callers options next).1.ident = next := rfl

/-- C10. Syntax-representation round trip without identity: a
constructed key's GoString is exactly the Go expression
`feature.New[<type>](feature.WithName(<quoted name>))`, which determines
the display name uniquely (the quotation is injective); evaluating that
expression — a later call of New with the single option WithName of
that name — yields a key with the same type and the same display name
but a fresh token, so a value bound through the new key reads back
absent through the original key (on a scope where the original was not
set); the boolKey GoString has the corresponding NewBool form. -/
theorem gostring_roundtrip {V : Type} (τ : GoType V) (c : Ctor) (n₀ next1 : Nat)
    (callers : List Frame) (ctx : Ctx) (v : V)
    (hlater : n₀ < next1)
    (hctx : Key.IsSet (runCtor c n₀).1 τ ctx = false) :
    EvaluatesToNew (Key.GoString (runCtor c n₀).1 τ) τ (runCtor c n₀).1.name ∧
    (∀ n2 : String, EvaluatesToNew (Key.GoString (runCtor c n₀).1 τ) τ n2 →
      n2 = (runCtor c n₀).1.name) ∧
    (New callers [WithName (runCtor c n₀).1.name] next1).1.name = (runCtor c n₀).1.name ∧
    (New callers [WithName (runCtor c n₀).1.name] next1).1.ident ≠ (runCtor c n₀).1.ident ∧
    Key.TryGet (runCtor c n₀).1 τ
      (Key.WithValue (New callers [WithName (runCtor c n₀).1.name] next1).1 τ ctx v)
      = (τ.zero, false) ∧
    Key.IsSet (runCtor c n₀).1 τ
      (Key.WithValue (New callers [WithName (runCtor c n₀).1.name] next1).1 τ ctx v)
      = false ∧
    BoolKey.GoString ⟨(runCtor c n₀).1⟩
      = "feature.NewBool(feature.WithName(" ++ goQuote (runCtor c n₀).1.name ++ "))" := by
  have hname : (runCtor c n₀).1.name ≠ "" := runCtor_name_ne_empty c n₀
  have hident : (runCtor c n₀).1.ident = n₀ := runCtor_ident c n₀
  have hnewident : (New callers [WithName (runCtor c n₀).1.name] next1).1.ident = next1 :=
    New_ident _ _ next1
  have hne : (runCtor c n₀).1.ident
      ≠ (New callers [WithName (runCtor c n₀).1.name] next1).1.ident := by
    rw [hident, hnewident]; omega
  have htry : Key.TryGet (runCtor c n₀).1 τ
      (Key.WithValue (New callers [WithName (runCtor c n₀).1.name] next1).1 τ ctx v)
      = Key.TryGet (runCtor c n₀).1 τ ctx :=
    Key.tryGet_withValue_ne τ τ _ _ ctx v hne
  have habs : Key.TryGet (runCtor c n₀).1 τ ctx = (τ.zero, false) :=
    typeAssert_snd_false τ _ hctx
  refine ⟨rfl, ?_, ?_, fun h => hne h.symm, htry.trans habs, ?_, rfl⟩
  · intro n2 h
    unfold EvaluatesToNew Key.GoString at h
    have hds := congrArg String.data h
    rw [String.data_append, String.data_append, String.data_append, String.data_append,
      String.data_append, String.data_append] at hds
    have h1 := List.append_cancel_right hds
    have h2 := List.append_cancel_left h1
    exact (goQuote_injective _ _ (String.ext h2)).symm
  · exact computeKeyName_of_ne _ _ _ _ hname
  · rw [Key.isSet_eq_tryGet_snd, htry, habs]

/-- Witness for C1: two concrete fresh keys, an empty scope and the
value 7. -/
theorem identity_uniqueness_witness :
    Key.IsSet (runCtor (Ctor.viaNewBool [] []) (runCtor (Ctor.viaNew [] []) 0).2).1
      intTy [] = false ∧
    (Key.TryGet (runCtor (Ctor.viaNewBool [] []) (runCtor (Ctor.viaNew [] []) 0).2).1 intTy
        (Key.WithValue (runCtor (Ctor.viaNew [] []) 0).1 intTy [] 7)
        = (intTy.zero, false) ∧
     Key.IsSet (runCtor (Ctor.viaNewBool [] []) (runCtor (Ctor.viaNew [] []) 0).2).1 intTy
        (Key.WithValue (runCtor (Ctor.viaNew [] []) 0).1 intTy [] 7) = false) :=
  ⟨by decide,
   identity_uniqueness intTy intTy (Ctor.viaNew [] []) (Ctor.viaNewBool [] []) 0 [] 7
     (by decide)⟩

/-- Witness for C2: a concrete key, the empty scope and the zero value
of int. -/
theorem bind_read_roundtrip_witness :
    Ctx.value [] (Key.mk "k2" 0).ident = none ∧
    (Key.TryGet (Key.mk "k2" 0) intTy
        (Key.WithValue (Key.mk "k2" 0) intTy [] intTy.zero) = (intTy.zero, true) ∧
     Key.IsSet (Key.mk "k2" 0) intTy
        (Key.WithValue (Key.mk "k2" 0) intTy [] intTy.zero) = true ∧
     Key.TryGet (Key.mk "k2" 0) intTy [] = (intTy.zero, false) ∧
     Key.IsSet (Key.mk "k2" 0) intTy [] = false) := by
  have h := bind_read_roundtrip intTy (Key.mk "k2" 0) [] intTy.zero (by decide)
  exact ⟨by decide, h.1, h.2.1, h.2.2.1, h.2.2.2.1⟩

/-- Witness for C3: an int key whose token holds a string value written
by some foreign party. -/
theorem foreign_write_safety_witness :
    Ctx.value [(5, GoVal.vString "oops")] (Key.mk "k3" 5).ident
      = some (GoVal.vString "oops") ∧
    intTy.proj (GoVal.vString "oops") = none ∧
    (Key.TryGet (Key.mk "k3" 5) intTy [(5, GoVal.vString "oops")] = (intTy.zero, false) ∧
     Key.Get (Key.mk "k3" 5) intTy [(5, GoVal.vString "oops")] = intTy.zero ∧
     Key.IsSet (Key.mk "k3" 5) intTy [(5, GoVal.vString "oops")] = false ∧
     Key.MustGet (Key.mk "k3" 5) intTy [(5, GoVal.vString "oops")]
       = Except.error ("key " ++ (Key.mk "k3" 5).str ++ " is not set in context")) :=
  ⟨by decide, by decide,
   foreign_write_safety intTy (Key.mk "k3" 5) [(5, GoVal.vString "oops")]
     (GoVal.vString "oops") (by decide) (by decide)⟩

/-- Witness for C5: a concrete bool key on the empty scope. -/
theorem bool_three_state_witness :
    Ctx.value [] (BoolKey.mk (Key.mk "b5" 2)).toKey.ident = none ∧
    (BoolKey.Enabled (BoolKey.mk (Key.mk "b5" 2)) [] = false ∧
     BoolKey.Disabled (BoolKey.mk (Key.mk "b5" 2)) [] = true ∧
     BoolKey.ExplicitlyDisabled (BoolKey.mk (Key.mk "b5" 2)) [] = false) ∧
    (BoolKey.Enabled (BoolKey.mk (Key.mk "b5" 2))
        (BoolKey.WithDisabled (BoolKey.mk (Key.mk "b5" 2)) []) = false ∧
     BoolKey.ExplicitlyDisabled (BoolKey.mk (Key.mk "b5" 2))
        (BoolKey.WithDisabled (BoolKey.mk (Key.mk "b5" 2)) []) = true) ∧
    (BoolKey.Enabled (BoolKey.mk (Key.mk "b5" 2))
        (BoolKey.WithEnabled (BoolKey.mk (Key.mk "b5" 2)) []) = true) := by
  have h := bool_three_state (BoolKey.mk (Key.mk "b5" 2)) [] [] (by decide)
  exact ⟨by decide, h.1, ⟨h.2.1.1, h.2.1.2.2⟩, h.2.2.1.1⟩

/-- Witness for C7: a concrete int key inspected on the empty scope,
then bound to 1. -/
theorem inspection_freeze_witness :
    Ctx.value [] (Key.mk "k7" 3).ident = none ∧
    ((Key.Inspect (Key.mk "k7" 3) intTy []).key = Key.mk "k7" 3 ∧
     (Key.Inspect (Key.mk "k7" 3) intTy []).IsSet = false ∧
     (Key.Inspect (Key.mk "k7" 3) intTy
        (Key.WithValue (Key.mk "k7" 3) intTy [] 1)).IsSet = true ∧
     (Key.Inspect (Key.mk "k7" 3) intTy
        (Key.WithValue (Key.mk "k7" 3) intTy [] 1)).Get = 1) := by
  have h := inspection_freeze intTy (Key.mk "k7" 3) [] 1 (by decide)
  exact ⟨by decide, h.1, h.2.2.2.2.2.1, h.2.2.2.2.2.2.1, h.2.2.2.2.2.2.2⟩

/-- Witness for C8: the explicit name "n", and an anonymous key
constructed at user.go line 42. -/
theorem naming_resolution_witness :
    ("n" : String) ≠ "" ∧
    ((NewNamed "n" [("user.go", 42)] [] 0).1.name = "n" ∧
     (NewNamedBool "n" [("user.go", 42)] [] 0).1.toKey.name = "n") ∧
    (New [("user.go", 42)] [] 0).1.name
      = "anonymous(" ++ "user.go" ++ ":" ++ toString 42 ++ ")@" ++ formatPtr 0 ∧
    (New [] [] 0).1.name = "anonymous@" ++ formatPtr 0 := by
  have h := naming_resolution "n" "user.go" 42 [] 0 (by decide)
  exact ⟨by decide, ⟨h.1.1, h.1.2.1⟩, h.2.1.1, h.2.2.1.1⟩

/-- Witness for C10: a fresh anonymous int key, its GoString, and the
re-evaluated accessor bound on the empty scope. -/
theorem gostring_roundtrip_witness :
    (0 : Nat) < 1 ∧
    Key.IsSet (runCtor (Ctor.viaNew [] []) 0).1 intTy [] = false ∧
    (EvaluatesToNew (Key.GoString (runCtor (Ctor.viaNew [] []) 0).1 intTy) intTy
        (runCtor (Ctor.viaNew [] []) 0).1.name ∧
     (New [] [WithName (runCtor (Ctor.viaNew [] []) 0).1.name] 1).1.name
        = (runCtor (Ctor.viaNew [] []) 0).1.name ∧
     (New [] [WithName (runCtor (Ctor.viaNew [] []) 0).1.name] 1).1.ident
        ≠ (runCtor (Ctor.viaNew [] []) 0).1.ident ∧
     Key.TryGet (runCtor (Ctor.viaNew [] []) 0).1 intTy
        (Key.WithValue (New [] [WithName (runCtor (Ctor.viaNew [] []) 0).1.name] 1).1
          intTy [] 7) = (intTy.zero, false)) := by
  have h := gostring_roundtrip intTy (Ctor.viaNew [] []) 0 1 [] [] 7 (by decide) (by decide)
  exact ⟨by decide, by decide, h.1, h.2.2.1, h.2.2.2.1, h.2.2.2.2.1⟩

end Feature
